import Mathlib

/-!
Verification development for the worker-mesh core of the repository:
`src/executors/agent_mesh.py` (mesh registry), `src/local_agent/daemon.py`
(worker daemon) and `src/local_agent/process_manager.py` (process supervisor).

Modelling conventions:
- Python `str` values that are only compared or concatenated are `String`;
  captured process output, where per-character truncation matters, is
  `List Char` (Python strings are sequences of code points).
- Python `int` is `Int`; Python `float` timestamps and ratios are `ℚ`
  (exact rationals in place of IEEE floats).
- Python dicts keyed by fresh UUIDs are association lists in insertion
  order (`dict` preserves insertion order; keys are never re-inserted).
- The asynchronous registry is modelled as an explicit state machine:
  each `MeshEv` event is one atomic code path of `agent_mesh.py`, and
  `step` performs exactly the mutations that path performs.
-/

/-! Constants from `src/executors/agent_mesh.py`. -/

def HEARTBEAT_INTERVAL : ℚ := 30

def HEARTBEAT_TIMEOUT : ℚ := 90

/-- AgentInfo, `agent_mesh.py` lines 36-49.  Field defaults mirror the
dataclass defaults.  The live websocket handle `ws` is not modelled; the
derived properties below are. -/
structure AgentInfo where
  agent_id : String
  hostname : String
  os_name : String := ""
  capabilities : List String := []
  project_paths : List (String × String) := []
  running_tasks : Int := 0
  max_concurrent : Int := 3
  last_heartbeat : ℚ := 0
  connected_at : ℚ := 0
deriving DecidableEq

/-- Python property `AgentInfo.is_alive` (line 51-53):
`(time.time() - self.last_heartbeat) < HEARTBEAT_TIMEOUT`, with the current
time passed explicitly. -/
def AgentInfo.is_alive (a : AgentInfo) (now : ℚ) : Bool :=
  decide (now - a.last_heartbeat < HEARTBEAT_TIMEOUT)

/-- Python property `AgentInfo.available_slots` (line 55-57):
`max(0, self.max_concurrent - self.running_tasks)`. -/
def AgentInfo.available_slots (a : AgentInfo) : Int :=
  max 0 (a.max_concurrent - a.running_tasks)

/-- Python property `AgentInfo.load_ratio` (lines 59-63): `1.0` when
`max_concurrent == 0`, else `running_tasks / max_concurrent`, modelled over
ℚ. -/
def AgentInfo.loadFraction (a : AgentInfo) : ℚ :=
  if a.max_concurrent = 0 then 1 else (a.running_tasks : ℚ) / (a.max_concurrent : ℚ)

/-- Membership test `project_name in agent.project_paths` (a dict lookup on
the keys). -/
def AgentInfo.hasProject (a : AgentInfo) (p : String) : Bool :=
  a.project_paths.any (fun kv => kv.1 == p)

/-- The hard resource filter of `find_best_agent` line 213:
`a.is_alive and a.available_slots > 0`. -/
def aliveWithSlots (now : ℚ) (a : AgentInfo) : Bool :=
  a.is_alive now && decide (0 < a.available_slots)

/-- The candidate pool of `find_best_agent` line 213. -/
def candidatesOf (now : ℚ) (agents : List AgentInfo) : List AgentInfo :=
  agents.filter (aliveWithSlots now)

/-- Head of the list after Python `candidates.sort(key=lambda a: a.load_ratio)`
(line 230-231).  Python `list.sort` is a stable sort, so
`sorted(candidates)[0]` is exactly the first element of `candidates` whose
key is minimal; `pickFirstMin` computes that element directly. -/
def pickFirstMin : List AgentInfo → Option AgentInfo
  | [] => none
  | a :: rest =>
    match pickFirstMin rest with
    | none => some a
    | some b => if b.loadFraction < a.loadFraction then some b else some a

/-- The soft-filter pattern used twice in `find_best_agent` (lines 218-221
and 224-227): narrow `base` to the elements satisfying `p`, but keep `base`
whole when the narrowed list would be empty. -/
def narrowBy (base : List AgentInfo) (p : AgentInfo → Bool) : List AgentInfo :=
  let sub := base.filter p
  if sub.isEmpty then base else sub

/-- AgentMesh.find_best_agent, `agent_mesh.py` lines 201-231.  `agents` is
`self._agents.values()` in insertion order; `now` is the current time used
by `is_alive`.  An absent (`None`) filter argument is `none`.  The guards
`if require_capability:` (line 218) and `if project_name:` (line 224) test
Python truthiness, which is false both for `None` and for the empty
string, so a `some ""` argument skips the narrowing exactly like `none`. -/
def findBestAgent (now : ℚ) (agents : List AgentInfo)
    (project_name : Option String) (require_capability : Option String) :
    Option AgentInfo :=
  let candidates := candidatesOf now agents
  if candidates.isEmpty then none
  else
    let candidates1 :=
      match require_capability with
      | none => candidates
      | some c =>
        if c == "" then candidates
        else narrowBy candidates (fun a => a.capabilities.contains c)
    let candidates2 :=
      match project_name with
      | none => candidates1
      | some p =>
        if p == "" then candidates1
        else narrowBy candidates1 (fun a => a.hasProject p)
    pickFirstMin candidates2

/-! The registry state machine: `AgentMesh` dispatch / result / timeout /
cleanup paths, modelled as an explicit step function. -/

/-- One entry of `AgentMesh._pending` (task_id → asyncio.Future).
`owner` is ghost data recording which agent a request was dispatched to
(the local variable `agent` in `run_command` / `run_claude_code`); the
source code does not store it, and `step` never reads it.
`inMap` says the entry is still present in the `_pending` dict (futures are
popped by the result handler and the timeout path but not by cleanup).
`result` is the value passed to `fut.set_result`, `none` while the future
is unresolved. -/
structure PendingEntry where
  owner : String
  inMap : Bool
  result : Option (Bool × String)
deriving DecidableEq

/-- State of one `AgentMesh` instance: `self._agents` (values in insertion
order) and `self._pending`. -/
structure MeshSt where
  agents : List AgentInfo
  pending : List (String × PendingEntry)
deriving DecidableEq

/-- Dict lookup `self._agents.get(agent_id)`. -/
def lookupAgent (agents : List AgentInfo) (aid : String) : Option AgentInfo :=
  agents.find? (fun a => a.agent_id == aid)

/-- In-place mutation of the record stored under `aid` (Python mutates the
`AgentInfo` object held in the dict). -/
def updateAgent (agents : List AgentInfo) (aid : String)
    (f : AgentInfo → AgentInfo) : List AgentInfo :=
  agents.map (fun a => if a.agent_id == aid then f a else a)

/-- Dict lookup in `self._pending`. -/
def lookupPending (pending : List (String × PendingEntry)) (tid : String) :
    Option PendingEntry :=
  (pending.find? (fun kv => kv.1 == tid)).map Prod.snd

/-- In-place mutation of the pending entry stored under `tid`. -/
def setPending (pending : List (String × PendingEntry)) (tid : String)
    (f : PendingEntry → PendingEntry) : List (String × PendingEntry) :=
  pending.map (fun kv => if kv.1 == tid then (kv.1, f kv.2) else kv)

/-- One atomic code path of `agent_mesh.py`:
- `dispatch aid tid`: the dispatch prefix of `run_command` (lines 256-259)
  and `run_claude_code` (lines 306-309): register a fresh pending future
  under `tid` and `agent.running_tasks += 1` on the selected agent `aid`.
- `resultMsg now aid tid success output`: `_handle_message` on a `result`
  message (lines 161-189) from the connection of agent `aid`.
- `timeoutFired aid tid`: the `asyncio.TimeoutError` branch of
  `run_command` (lines 276-278) / `run_claude_code` (lines 327-329):
  `self._pending.pop(task_id, None)` (the future is cancelled, its result
  stays unset) and a floored decrement of the dispatched agent.
- `cleanup aid`: `_cleanup_agent` (lines 146-159). -/
inductive MeshEv where
  | dispatch (agent_id task_id : String)
  | resultMsg (now : ℚ) (agent_id task_id : String) (success : Bool) (output : String)
  | timeoutFired (agent_id task_id : String)
  | cleanup (agent_id : String)

/-- The step function of the registry state machine; each branch performs
exactly the mutations of the code path named in `MeshEv`. -/
def step (s : MeshSt) : MeshEv → MeshSt
  | .dispatch aid tid =>
    { agents := updateAgent s.agents aid
        (fun a => { a with running_tasks := a.running_tasks + 1 }),
      pending := s.pending ++ [(tid, { owner := aid, inMap := true, result := none })] }
  | .resultMsg now aid tid success output =>
    match lookupAgent s.agents aid with
    | none => s
    | some _ =>
      { agents := updateAgent s.agents aid (fun a =>
          { a with last_heartbeat := now,
                   running_tasks := max 0 (a.running_tasks - 1) }),
        pending :=
          match lookupPending s.pending tid with
          | some pe =>
            if pe.inMap then
              setPending s.pending tid (fun pe =>
                { pe with inMap := false,
                          result := if pe.result.isNone then some (success, output)
                                    else pe.result })
            else s.pending
          | none => s.pending }
  | .timeoutFired aid tid =>
    { agents := updateAgent s.agents aid (fun a =>
        { a with running_tasks := max 0 (a.running_tasks - 1) }),
      pending := setPending s.pending tid (fun pe => { pe with inMap := false }) }
  | .cleanup aid =>
    match lookupAgent s.agents aid with
    | none => s
    | some ag =>
      { agents := s.agents.filter (fun a => a.agent_id != aid),
        pending := s.pending.map (fun kv =>
          if kv.2.inMap && kv.2.result.isNone then
            (kv.1, { kv.2 with
              result := some (false, "Agente " ++ ag.hostname ++ " se desconecto.") })
          else kv) }

/-- AgentMesh.handle_agent_connection, `agent_mesh.py` lines 105-121,
up to and including the registration of the fresh AgentRecord (the receive
loop that follows is the per-message behaviour modelled by `step`).
`authHeader` is `ws.headers.get("authorization", "")`; `new_id` the fresh
UUID; the second component of the return value is the close code sent
(`some 4001` on auth failure, `none` when the connection is accepted). -/
def handle_agent_connection (ws_secret : String) (authHeader : String)
    (s : MeshSt) (new_id : String) (now : ℚ) : MeshSt × Option Nat :=
  if authHeader != "Bearer " ++ ws_secret then
    (s, some 4001)
  else
    ({ s with agents := s.agents ++
        [{ agent_id := new_id, hostname := "unknown",
           last_heartbeat := now, connected_at := now }] }, none)

/-! Process supervisor: `src/local_agent/process_manager.py`. -/

/-- Output-size cap of `ProcessManager.run` (line 65): `max_output = 50_000`. -/
def MAX_OUTPUT : Nat := 50000

/-- Truncation marker appended at line 67. -/
def TRUNC_MARKER : List Char := "\n\n... (output truncado)".data

/-- Output capping of `ProcessManager.run` lines 64-67:
`if len(output) > max_output: output = output[:max_output] + marker`. -/
def capOutput (output : List Char) : List Char :=
  if MAX_OUTPUT < output.length then output.take MAX_OUTPUT ++ TRUNC_MARKER
  else output

/-- Outcome of the spawned subprocess, abstracting the operating-system
side of `ProcessManager.run`:
- `completed rc out`: the process exited with code `rc` after producing
  combined stdout+stderr `out` (already decoded; empty stdout decodes to
  the empty string),
- `timedOut`: `asyncio.wait_for` raised `TimeoutError` (lines 51-59),
- `fileNotFound`: spawning raised `FileNotFoundError` (lines 75-80),
- `otherError msg`: any other exception, rendered as `msg` (lines 81-87). -/
inductive SpawnOutcome where
  | completed (returncode : Int) (stdout : List Char)
  | timedOut
  | fileNotFound
  | otherError (message : List Char)

/-- Result dict of `ProcessManager.run`: keys success, output, exit_code. -/
structure RunResult where
  success : Bool
  output : List Char
  exit_code : Option Int
deriving DecidableEq

/-- ProcessManager.run, `process_manager.py` lines 19-87, as a function of
the spawn outcome.  Each branch returns exactly the dict the corresponding
Python branch returns. -/
def ProcessManager.run (command : List Char) (timeout : Int)
    (outcome : SpawnOutcome) : RunResult :=
  match outcome with
  | .timedOut =>
    { success := false,
      output := "Timeout (".data ++ (toString timeout).data
                ++ "s) ejecutando: ".data ++ command,
      exit_code := some (-1) }
  | .completed rc out =>
    { success := decide (rc = 0), output := capOutput out, exit_code := some rc }
  | .fileNotFound =>
    { success := false,
      output := "Comando no encontrado: ".data ++ command,
      exit_code := some (-1) }
  | .otherError msg =>
    { success := false,
      output := "Error ejecutando comando: ".data ++ msg,
      exit_code := some (-1) }

/-! Worker daemon reconnect backoff: `src/local_agent/daemon.py`. -/

def RECONNECT_DELAY : Nat := 5

def MAX_RECONNECT_DELAY : Nat := 60

/-- One iteration of the `while self._running` loop of
`LocalAgentDaemon.start` (lines 144-185), restricted to its effect on the
backoff delay.  `sessionOk = true` models an iteration in which
`websockets.connect` succeeded (so `delay = RECONNECT_DELAY` ran at line
153 before the session eventually ended); `false` models a failed
connection attempt.  Returns the sleep performed at line 184 and the delay
entering the next iteration (line 185: `min(delay * 2, MAX_RECONNECT_DELAY)`). -/
def loopIter (sessionOk : Bool) (delay : Nat) : Nat × Nat :=
  let d := if sessionOk then RECONNECT_DELAY else delay
  (d, min (d * 2) MAX_RECONNECT_DELAY)

/-- The sleeps performed by successive loop iterations, given the delay
entering the first one and the success flag of each iteration. -/
def sleepsOf (d0 : Nat) : List Bool → List Nat
  | [] => []
  | ok :: rest =>
    let p := loopIter ok d0
    p.1 :: sleepsOf p.2 rest

/-- Closed-form reference sequence: the delay slept before the n-th retry
(0-indexed) following a disconnect of a successfully established session. -/
def retrySleep : Nat → Nat
  | 0 => RECONNECT_DELAY
  | n + 1 => min (retrySleep n * 2) MAX_RECONNECT_DELAY

/-! Concrete fixtures used by witness and counterexample theorems. -/

/-- An alive agent holding project "divenamic" with one task running. -/
def agentProj : AgentInfo :=
  { agent_id := "a1", hostname := "m1",
    project_paths := [("divenamic", "/d")], running_tasks := 1 }

/-- An alive idle agent without projects, connected later. -/
def agentIdle : AgentInfo :=
  { agent_id := "a2", hostname := "m2", connected_at := 1 }

/-- An alive agent advertising the empty string as a project name (the
registry stores the hello projects dict unvalidated). -/
def agentEmptyProj : AgentInfo :=
  { agent_id := "e1", hostname := "e1",
    project_paths := [("", "/p")], running_tasks := 1 }

/-- An agent advertising zero capacity. -/
def agentZero : AgentInfo :=
  { agent_id := "z", hostname := "z", max_concurrent := 0 }

/-- A half-loaded agent. -/
def agentNorm : AgentInfo :=
  { agent_id := "n", hostname := "n", running_tasks := 1, max_concurrent := 2 }

/-- Two idle agents with equal load, connected at times 0 and 1. -/
def agentTieA : AgentInfo :=
  { agent_id := "t1", hostname := "t1" }

def agentTieB : AgentInfo :=
  { agent_id := "t2", hostname := "t2", connected_at := 1 }

def meshC1Agent : AgentInfo := { agent_id := "a1", hostname := "pc1" }

def meshC1Start : MeshSt := { agents := [meshC1Agent], pending := [] }

/-- Trace driving the double-decrement of `running_tasks`: two dispatches
to agent a1, a registry-side timeout of t1, then a late result for t1. -/
def meshC1Trace : List MeshEv :=
  [.dispatch "a1" "t1", .dispatch "a1" "t2", .timeoutFired "a1" "t1",
   .resultMsg 0 "a1" "t1" true "late"]

def meshAgentA : AgentInfo := { agent_id := "a", hostname := "pc1" }

def meshAgentB : AgentInfo := { agent_id := "b", hostname := "pc2" }

/-- Two connected agents; one pending request t7 dispatched to agent b. -/
def meshC2Start : MeshSt :=
  { agents := [meshAgentA, meshAgentB],
    pending := [("t7", { owner := "b", inMap := true, result := none })] }

def meshEmpty : MeshSt := { agents := [], pending := [] }

/-! Helper lemmas about the routing algorithm. -/

theorem pickFirstMin_eq_none_iff (l : List AgentInfo) :
    pickFirstMin l = none ↔ l = [] := by
  cases l with
  | nil => simp [pickFirstMin]
  | cons a rest =>
    cases hr : pickFirstMin rest with
    | none => simp [pickFirstMin, hr]
    | some c =>
      by_cases hc : c.loadFraction < a.loadFraction <;>
        simp [pickFirstMin, hr, hc]

theorem pickFirstMin_mem {l : List AgentInfo} {b : AgentInfo}
    (h : pickFirstMin l = some b) : b ∈ l := by
  induction l with
  | nil => simp [pickFirstMin] at h
  | cons a rest ih =>
    cases hr : pickFirstMin rest with
    | none =>
      simp [pickFirstMin, hr] at h
      simp [h]
    | some c =>
      by_cases hc : c.loadFraction < a.loadFraction
      · simp [pickFirstMin, hr, hc] at h
        subst h
        exact List.mem_cons_of_mem _ (ih hr)
      · simp [pickFirstMin, hr, hc] at h
        simp [h]

theorem pickFirstMin_le : ∀ (l : List AgentInfo) (b : AgentInfo),
    pickFirstMin l = some b → ∀ a ∈ l, b.loadFraction ≤ a.loadFraction := by
  intro l
  induction l with
  | nil => intro b h; simp [pickFirstMin] at h
  | cons a rest ih =>
    intro b h
    cases hr : pickFirstMin rest with
    | none =>
      simp [pickFirstMin, hr] at h
      have hnil : rest = [] := (pickFirstMin_eq_none_iff rest).mp hr
      subst hnil
      simp [← h]
    | some c =>
      by_cases hc : c.loadFraction < a.loadFraction
      · simp [pickFirstMin, hr, hc] at h
        subst h
        intro x hx
        rcases List.mem_cons.mp hx with hxa | hxr
        · subst hxa; exact le_of_lt hc
        · exact ih _ hr x hxr
      · simp [pickFirstMin, hr, hc] at h
        subst h
        intro x hx
        rcases List.mem_cons.mp hx with hxa | hxr
        · subst hxa; exact le_refl _
        · exact le_trans (not_lt.mp hc) (ih c hr x hxr)

theorem pickFirstMin_tiebreak : ∀ (l : List AgentInfo) (b : AgentInfo),
    l.Pairwise (fun x y => x.connected_at ≤ y.connected_at) →
    pickFirstMin l = some b →
    ∀ a ∈ l, a.loadFraction = b.loadFraction → b.connected_at ≤ a.connected_at := by
  intro l
  induction l with
  | nil => intro b _ h; simp [pickFirstMin] at h
  | cons a rest ih =>
    intro b hs h
    have ha : ∀ x ∈ rest, a.connected_at ≤ x.connected_at :=
      (List.pairwise_cons.mp hs).1
    have hrest := (List.pairwise_cons.mp hs).2
    cases hr : pickFirstMin rest with
    | none =>
      simp [pickFirstMin, hr] at h
      have hnil : rest = [] := (pickFirstMin_eq_none_iff rest).mp hr
      subst hnil
      simp [← h]
    | some c =>
      by_cases hc : c.loadFraction < a.loadFraction
      · simp [pickFirstMin, hr, hc] at h
        subst h
        intro x hx hlf
        rcases List.mem_cons.mp hx with hxa | hxr
        · subst hxa; exact absurd hlf (ne_of_gt hc)
        · exact ih _ hrest hr x hxr hlf
      · simp [pickFirstMin, hr, hc] at h
        subst h
        intro x hx _
        rcases List.mem_cons.mp hx with hxa | hxr
        · subst hxa; exact le_refl _
        · exact ha x hxr

theorem narrowBy_subset {base : List AgentInfo} {p : AgentInfo → Bool} {x : AgentInfo}
    (h : x ∈ narrowBy base p) : x ∈ base := by
  by_cases hsub : (base.filter p).isEmpty
  · simpa [narrowBy, hsub] using h
  · rw [narrowBy] at h
    simp only [hsub, if_false] at h
    exact List.mem_of_mem_filter h

theorem narrowBy_ne_nil {base : List AgentInfo} {p : AgentInfo → Bool}
    (h : base ≠ []) : narrowBy base p ≠ [] := by
  by_cases hsub : (base.filter p).isEmpty
  · simpa [narrowBy, hsub] using h
  · rw [narrowBy]
    simp only [hsub, if_false]
    simpa [List.isEmpty_iff] using hsub

theorem narrowBy_sat {base : List AgentInfo} {p : AgentInfo → Bool}
    (hex : ∃ x ∈ base, p x = true) :
    ∀ y ∈ narrowBy base p, p y = true := by
  by_cases hsub : (base.filter p).isEmpty
  · obtain ⟨x, hx, hpx⟩ := hex
    have : x ∈ base.filter p := List.mem_filter.mpr ⟨hx, hpx⟩
    rw [List.isEmpty_iff.mp hsub] at this
    simp at this
  · intro y hy
    rw [narrowBy] at hy
    simp only [hsub, if_false] at hy
    exact (List.mem_filter.mp hy).2

theorem narrowBy_pairwise {R : AgentInfo → AgentInfo → Prop}
    {base : List AgentInfo} {p : AgentInfo → Bool}
    (h : base.Pairwise R) : (narrowBy base p).Pairwise R := by
  by_cases hsub : (base.filter p).isEmpty
  · simpa [narrowBy, hsub] using h
  · rw [narrowBy]
    simp only [hsub, if_false]
    exact h.filter p

theorem ite_narrowBy_ne_nil {base : List AgentInfo} {p : AgentInfo → Bool}
    {c : Prop} [Decidable c] (h : base ≠ []) :
    (if c then base else narrowBy base p) ≠ [] := by
  split
  · exact h
  · exact narrowBy_ne_nil h

theorem mem_of_mem_ite_narrow {base : List AgentInfo} {p : AgentInfo → Bool}
    {x : AgentInfo} {c : Prop} [Decidable c]
    (h : x ∈ (if c then base else narrowBy base p)) : x ∈ base := by
  split at h
  · exact h
  · exact narrowBy_subset h

theorem findBestAgent_ne_none (now : ℚ) (agents : List AgentInfo)
    (p c : Option String) (hne : candidatesOf now agents ≠ []) :
    findBestAgent now agents p c ≠ none := by
  have hb : (candidatesOf now agents).isEmpty = false := by
    simp [List.isEmpty_iff, hne]
  simp only [findBestAgent, hb, Bool.false_eq_true, if_false]
  rw [Ne, pickFirstMin_eq_none_iff]
  cases p with
  | none =>
    cases c with
    | none => exact hne
    | some cc => exact ite_narrowBy_ne_nil hne
  | some pp =>
    cases c with
    | none => exact ite_narrowBy_ne_nil hne
    | some cc => exact ite_narrowBy_ne_nil (ite_narrowBy_ne_nil hne)

theorem findBestAgent_eq_none_iff (now : ℚ) (agents : List AgentInfo)
    (p c : Option String) :
    findBestAgent now agents p c = none ↔ candidatesOf now agents = [] := by
  constructor
  · intro h
    by_contra hne
    exact findBestAgent_ne_none now agents p c hne h
  · intro hnil
    simp [findBestAgent, hnil]

theorem findBestAgent_mem (now : ℚ) (agents : List AgentInfo)
    (p c : Option String) (b : AgentInfo)
    (h : findBestAgent now agents p c = some b) : b ∈ agents := by
  cases hb : (candidatesOf now agents).isEmpty with
  | true =>
    simp [findBestAgent, hb] at h
  | false =>
    simp only [findBestAgent, hb, Bool.false_eq_true, if_false] at h
    have hb2 := pickFirstMin_mem h
    cases p with
    | none =>
      cases c with
      | none => exact List.mem_of_mem_filter hb2
      | some cc => exact List.mem_of_mem_filter (mem_of_mem_ite_narrow hb2)
    | some pp =>
      cases c with
      | none => exact List.mem_of_mem_filter (mem_of_mem_ite_narrow hb2)
      | some cc =>
        exact List.mem_of_mem_filter
          (mem_of_mem_ite_narrow (mem_of_mem_ite_narrow hb2))

/-- C3: for every agent table and capability C, `find_best_agent` with
`require_capability=C` returns None exactly when no registered agent is both
alive and has a free slot; in particular, whenever some alive agent with a
free slot exists it returns an agent even if no agent in the table has
capability C — the capability filter is soft and can never on its own force
an empty result. -/
theorem find_best_agent_capability_soft (now : ℚ) (agents : List AgentInfo)
    (C : String) :
    findBestAgent now agents none (some C) = none ↔
      candidatesOf now agents = [] :=
  findBestAgent_eq_none_iff now agents none (some C)

/-- C4 (amended): whenever at least one alive agent with a free slot has
project P in its project map and P is not the empty string, then
`find_best_agent(project_name=P)` returns an agent whose project map
contains P — no matter how lightly loaded the candidates without P are,
since the project narrowing is applied before the load sort.  The guard
`if project_name:` is falsy for the empty string, so `P = ""` skips the
project filter entirely (see the counterexample theorem). -/
theorem find_best_agent_prefers_project (now : ℚ) (agents : List AgentInfo)
    (P : String) (hP : P ≠ "")
    (hex : ∃ x ∈ candidatesOf now agents, x.hasProject P = true) :
    ∃ b, findBestAgent now agents (some P) none = some b ∧
      b.hasProject P = true := by
  have hne : candidatesOf now agents ≠ [] := by
    obtain ⟨x, hx, _⟩ := hex
    intro hnil
    rw [hnil] at hx
    simp at hx
  have hb : (candidatesOf now agents).isEmpty = false := by
    simp [List.isEmpty_iff, hne]
  have hPb : (P == "") = false := by
    simpa using hP
  have heq : findBestAgent now agents (some P) none =
      pickFirstMin (narrowBy (candidatesOf now agents) (fun a => a.hasProject P)) := by
    simp only [findBestAgent, hb, Bool.false_eq_true, if_false, hPb]
  rw [heq]
  have hsub : narrowBy (candidatesOf now agents) (fun a => a.hasProject P) ≠ [] :=
    narrowBy_ne_nil hne
  cases hp : pickFirstMin (narrowBy (candidatesOf now agents) (fun a => a.hasProject P)) with
  | none => exact absurd ((pickFirstMin_eq_none_iff _).mp hp) hsub
  | some b => exact ⟨b, rfl, narrowBy_sat hex b (pickFirstMin_mem hp)⟩

/-- C5: with no filters, `find_best_agent` returns a candidate (alive, with
a free slot) whose load ratio `running_tasks / max_concurrent` is minimal
over all candidates, and whose `connected_at` is not later than that of any
candidate sharing the minimal ratio.  The hypothesis that the agent table
is ordered by nondecreasing `connected_at` is the registry invariant:
`self._agents` is a dict populated in connection order, and `connected_at`
is assigned `time.time()` at insertion. -/
theorem find_best_agent_lowest_load (now : ℚ) (agents : List AgentInfo)
    (hs : agents.Pairwise (fun x y => x.connected_at ≤ y.connected_at))
    (hne : candidatesOf now agents ≠ []) :
    ∃ b, findBestAgent now agents none none = some b ∧
      b ∈ candidatesOf now agents ∧
      (∀ a ∈ candidatesOf now agents, b.loadFraction ≤ a.loadFraction) ∧
      (∀ a ∈ candidatesOf now agents,
        a.loadFraction = b.loadFraction → b.connected_at ≤ a.connected_at) := by
  have hb : (candidatesOf now agents).isEmpty = false := by
    simp [List.isEmpty_iff, hne]
  have heq : findBestAgent now agents none none =
      pickFirstMin (candidatesOf now agents) := by
    simp only [findBestAgent, hb, Bool.false_eq_true, if_false]
  have hcs : (candidatesOf now agents).Pairwise
      (fun x y => x.connected_at ≤ y.connected_at) := hs.filter _
  cases hp : pickFirstMin (candidatesOf now agents) with
  | none => exact absurd ((pickFirstMin_eq_none_iff _).mp hp) hne
  | some b =>
    exact ⟨b, by rw [heq, hp], pickFirstMin_mem hp,
      pickFirstMin_le _ _ hp, pickFirstMin_tiebreak _ _ hcs hp⟩

/-- C10: `load_ratio` is total — it returns 1 when `max_concurrent = 0` and
the exact quotient otherwise, so the load sort inside `find_best_agent`
is well defined for every table: the function always returns either `none`
or some member of the table, even when an agent advertises
`max_concurrent = 0`. -/
theorem load_fraction_total :
    (∀ a : AgentInfo, a.max_concurrent = 0 → a.loadFraction = 1) ∧
    (∀ a : AgentInfo, a.max_concurrent ≠ 0 →
      a.loadFraction = (a.running_tasks : ℚ) / (a.max_concurrent : ℚ)) ∧
    (∀ (now : ℚ) (agents : List AgentInfo) (p c : Option String),
      findBestAgent now agents p c = none ∨
        ∃ b ∈ agents, findBestAgent now agents p c = some b) := by
  refine ⟨?_, ?_, ?_⟩
  · intro a h
    simp [AgentInfo.loadFraction, h]
  · intro a h
    simp [AgentInfo.loadFraction, h]
  · intro now agents p c
    cases hf : findBestAgent now agents p c with
    | none => exact Or.inl rfl
    | some b => exact Or.inr ⟨b, findBestAgent_mem now agents p c b hf, rfl⟩

/-- C4 witness: on a table of two alive, slotted agents where the strictly
less loaded one lacks the (non-empty) project name, the theorem applies
and the returned agent holds the project. -/
theorem find_best_agent_prefers_project_witness :
    ("divenamic" : String) ≠ "" ∧
    (∃ x ∈ candidatesOf 0 [agentProj, agentIdle],
      x.hasProject "divenamic" = true) ∧
    ∃ b, findBestAgent 0 [agentProj, agentIdle] (some "divenamic") none = some b ∧
      b.hasProject "divenamic" = true := by
  have hex : ∃ x ∈ candidatesOf 0 [agentProj, agentIdle],
      x.hasProject "divenamic" = true := by
    have h : candidatesOf 0 [agentProj, agentIdle] = [agentProj, agentIdle] := by
      norm_num [candidatesOf, aliveWithSlots, AgentInfo.is_alive,
        AgentInfo.available_slots, HEARTBEAT_TIMEOUT, agentProj, agentIdle]
    rw [h]
    exact ⟨agentProj, by simp, by simp [agentProj, AgentInfo.hasProject]⟩
  exact ⟨by decide, hex,
    find_best_agent_prefers_project 0 _ "divenamic" (by decide) hex⟩

/-- C4 counterexample: with P = "" the guard `if project_name:` is falsy
and the project filter is skipped, so although the alive, slotted agent
agentEmptyProj has project "" in its map, the strictly less loaded
agentIdle — which does not have it — is returned: the claim as stated,
quantifying over every project name, fails at the empty string. -/
theorem find_best_agent_empty_project_name :
    (∃ x ∈ candidatesOf 0 [agentEmptyProj, agentIdle],
      x.hasProject "" = true) ∧
    findBestAgent 0 [agentEmptyProj, agentIdle] (some "") none =
      some agentIdle ∧
    agentIdle.hasProject "" = false := by
  have hc : candidatesOf 0 [agentEmptyProj, agentIdle] =
      [agentEmptyProj, agentIdle] := by
    norm_num [candidatesOf, aliveWithSlots, AgentInfo.is_alive,
      AgentInfo.available_slots, HEARTBEAT_TIMEOUT, agentEmptyProj, agentIdle]
  refine ⟨?_, ?_, ?_⟩
  · rw [hc]
    exact ⟨agentEmptyProj, by simp,
      by simp [agentEmptyProj, AgentInfo.hasProject]⟩
  · have hlt : agentIdle.loadFraction < agentEmptyProj.loadFraction := by
      norm_num [AgentInfo.loadFraction, agentIdle, agentEmptyProj]
    simp only [findBestAgent, hc]
    norm_num [pickFirstMin, hlt]
  · simp [agentIdle, AgentInfo.hasProject]

/-- C5 witness: two alive agents with equal load ratio connected at times 0
and 1; the theorem applies. -/
theorem find_best_agent_lowest_load_witness :
    ∃ b, findBestAgent 0 [agentTieA, agentTieB] none none = some b ∧
      b ∈ candidatesOf 0 [agentTieA, agentTieB] ∧
      (∀ a ∈ candidatesOf 0 [agentTieA, agentTieB],
        b.loadFraction ≤ a.loadFraction) ∧
      (∀ a ∈ candidatesOf 0 [agentTieA, agentTieB],
        a.loadFraction = b.loadFraction → b.connected_at ≤ a.connected_at) := by
  apply find_best_agent_lowest_load
  · norm_num [List.pairwise_cons, agentTieA, agentTieB]
  · have h : candidatesOf 0 [agentTieA, agentTieB] = [agentTieA, agentTieB] := by
      norm_num [candidatesOf, aliveWithSlots, AgentInfo.is_alive,
        AgentInfo.available_slots, HEARTBEAT_TIMEOUT, agentTieA, agentTieB]
    rw [h]
    simp

/-- C10 witness: the zero-capacity agent evaluates to ratio 1, the normal
agent to the exact quotient, and the routing function on a table holding
only the zero-capacity agent is still well defined. -/
theorem load_fraction_total_witness :
    agentZero.loadFraction = 1 ∧
    agentNorm.loadFraction = (1 : ℚ) / 2 ∧
    (findBestAgent 0 [agentZero] none none = none ∨
      ∃ b ∈ [agentZero], findBestAgent 0 [agentZero] none none = some b) := by
  refine ⟨load_fraction_total.1 _ (by rfl), ?_,
    load_fraction_total.2.2 0 _ none none⟩
  rw [load_fraction_total.2.1 _ (by decide)]
  norm_num [agentNorm]

/-! Helper lemmas about the registry state machine. -/

theorem lookupAgent_updateAgent (agents : List AgentInfo) (aid : String)
    (f : AgentInfo → AgentInfo) (hf : ∀ a, (f a).agent_id = a.agent_id) :
    lookupAgent (updateAgent agents aid f) aid = (lookupAgent agents aid).map f := by
  induction agents with
  | nil => rfl
  | cons a rest ih =>
    simp only [lookupAgent, updateAgent, List.map_cons] at *
    by_cases ha : (a.agent_id == aid) = true
    · have hfa : ((f a).agent_id == aid) = true := by rw [hf a]; exact ha
      rw [if_pos ha]
      simp [List.find?_cons, hfa, ha]
    · have ha' : (a.agent_id == aid) = false := by simpa using ha
      have hfa : ((f a).agent_id == aid) = false := by rw [hf a]; exact ha'
      rw [if_neg ha]
      simp only [List.find?_cons, hfa, ha']
      exact ih

theorem step_nonneg (s : MeshSt) (e : MeshEv)
    (h : ∀ a ∈ s.agents, 0 ≤ a.running_tasks) :
    ∀ a ∈ (step s e).agents, 0 ≤ a.running_tasks := by
  cases e with
  | dispatch aid tid =>
    intro a ha
    simp only [step, updateAgent] at ha
    obtain ⟨b, hb, hba⟩ := List.mem_map.mp ha
    by_cases hid : (b.agent_id == aid) = true
    · rw [if_pos hid] at hba
      rw [← hba]
      show 0 ≤ b.running_tasks + 1
      have := h b hb
      omega
    · rw [if_neg hid] at hba
      rw [← hba]
      exact h b hb
  | resultMsg now aid tid success output =>
    intro a ha
    simp only [step] at ha
    cases hl : lookupAgent s.agents aid with
    | none => rw [hl] at ha; exact h a ha
    | some ag =>
      rw [hl] at ha
      simp only [updateAgent] at ha
      obtain ⟨b, hb, hba⟩ := List.mem_map.mp ha
      by_cases hid : (b.agent_id == aid) = true
      · rw [if_pos hid] at hba
        rw [← hba]
        show 0 ≤ max 0 (b.running_tasks - 1)
        exact le_max_left 0 _
      · rw [if_neg hid] at hba
        rw [← hba]
        exact h b hb
  | timeoutFired aid tid =>
    intro a ha
    simp only [step, updateAgent] at ha
    obtain ⟨b, hb, hba⟩ := List.mem_map.mp ha
    by_cases hid : (b.agent_id == aid) = true
    · rw [if_pos hid] at hba
      rw [← hba]
      show 0 ≤ max 0 (b.running_tasks - 1)
      exact le_max_left 0 _
    · rw [if_neg hid] at hba
      rw [← hba]
      exact h b hb
  | cleanup aid =>
    intro a ha
    simp only [step] at ha
    cases hl : lookupAgent s.agents aid with
    | none => rw [hl] at ha; exact h a ha
    | some ag =>
      rw [hl] at ha
      exact h a (List.mem_of_mem_filter ha)

theorem foldl_step_nonneg (evs : List MeshEv) : ∀ (s : MeshSt),
    (∀ a ∈ s.agents, 0 ≤ a.running_tasks) →
    ∀ a ∈ (evs.foldl step s).agents, 0 ≤ a.running_tasks := by
  induction evs with
  | nil => intro s h; simpa using h
  | cons e rest ih => intro s h; exact ih (step s e) (step_nonneg s e h)

/-- C1 (amended): dispatching a request increments the selected agent's
`running_tasks` by exactly 1; a registry-side timeout decrements it by 1
floored at 0; and EVERY `result` message from that agent decrements it by
1 floored at 0, regardless of whether the named task id is still pending —
so a late result for a task the registry already timed out decrements the
counter a second time (the floor being the only protection).  The counter
can never become negative from any event sequence. -/
theorem running_tasks_accounting :
    (∀ (s : MeshSt) (aid tid : String) (a : AgentInfo),
      lookupAgent s.agents aid = some a →
      lookupAgent (step s (.dispatch aid tid)).agents aid =
        some { a with running_tasks := a.running_tasks + 1 }) ∧
    (∀ (s : MeshSt) (now : ℚ) (aid tid : String) (success : Bool)
      (output : String) (a : AgentInfo),
      lookupAgent s.agents aid = some a →
      lookupAgent (step s (.resultMsg now aid tid success output)).agents aid =
        some { a with last_heartbeat := now,
                      running_tasks := max 0 (a.running_tasks - 1) }) ∧
    (∀ (s : MeshSt) (aid tid : String) (a : AgentInfo),
      lookupAgent s.agents aid = some a →
      lookupAgent (step s (.timeoutFired aid tid)).agents aid =
        some { a with running_tasks := max 0 (a.running_tasks - 1) }) ∧
    (∀ (s : MeshSt) (evs : List MeshEv),
      (∀ a ∈ s.agents, 0 ≤ a.running_tasks) →
      ∀ a ∈ (evs.foldl step s).agents, 0 ≤ a.running_tasks) := by
  refine ⟨?_, ?_, ?_, ?_⟩
  · intro s aid tid a h
    have hupd := lookupAgent_updateAgent s.agents aid
      (fun a => { a with running_tasks := a.running_tasks + 1 }) (fun _ => rfl)
    show lookupAgent (updateAgent s.agents aid _) aid = _
    rw [hupd, h]
    rfl
  · intro s now aid tid success output a h
    have hupd := lookupAgent_updateAgent s.agents aid
      (fun a => { a with last_heartbeat := now,
                         running_tasks := max 0 (a.running_tasks - 1) })
      (fun _ => rfl)
    simp only [step, h]
    rw [hupd, h]
    rfl
  · intro s aid tid a h
    have hupd := lookupAgent_updateAgent s.agents aid
      (fun a => { a with running_tasks := max 0 (a.running_tasks - 1) })
      (fun _ => rfl)
    show lookupAgent (updateAgent s.agents aid _) aid = _
    rw [hupd, h]
    rfl
  · exact fun s evs h => foldl_step_nonneg evs s h

/-- C1 witness: on the one-agent mesh, the dispatch and timeout conjuncts
and the nonnegativity conjunct of the accounting theorem applied at
concrete inputs. -/
theorem running_tasks_accounting_witness :
    lookupAgent meshC1Start.agents "a1" = some meshC1Agent ∧
    lookupAgent (step meshC1Start (.dispatch "a1" "t1")).agents "a1" =
      some { meshC1Agent with running_tasks := meshC1Agent.running_tasks + 1 } ∧
    lookupAgent (step meshC1Start (.timeoutFired "a1" "t1")).agents "a1" =
      some { meshC1Agent with
             running_tasks := max 0 (meshC1Agent.running_tasks - 1) } ∧
    ∀ a ∈ (meshC1Trace.foldl step meshC1Start).agents, 0 ≤ a.running_tasks :=
  ⟨rfl,
   running_tasks_accounting.1 meshC1Start "a1" "t1" meshC1Agent rfl,
   running_tasks_accounting.2.2.1 meshC1Start "a1" "t1" meshC1Agent rfl,
   running_tasks_accounting.2.2.2 meshC1Start meshC1Trace (by decide)⟩

/-- C1 counterexample: dispatch t1 and t2 to agent a1 (counter 2), let the
registry time out t1 (counter 1), then deliver a late result for t1: the
result handler decrements unconditionally before consulting the pending
table, leaving the counter at 0 although request t2 is still dispatched and
unresolved.  The claim, which says a late result for an already timed-out
task id does not decrement `running_tasks` a second time, requires the
counter to be 1 here. -/
theorem running_tasks_double_decrement :
    (lookupAgent (meshC1Trace.foldl step meshC1Start).agents "a1").map
        AgentInfo.running_tasks = some 0 ∧
    lookupPending (meshC1Trace.foldl step meshC1Start).pending "t2" =
      some { owner := "a1", inMap := true, result := none } ∧
    (lookupAgent (meshC1Trace.foldl step meshC1Start).agents "a1").map
        AgentInfo.running_tasks ≠ some 1 :=
  ⟨by decide, by decide, by decide⟩

/-- C2: cleanup of agent a resolves the unresolved pending request t7 with
the disconnect failure naming agent a's hostname, although t7 was
dispatched to (and is owned by) the still-connected agent b.  The claim —
and the comment above the loop inside `_cleanup_agent` — require t7 to be
left unresolved; `_pending` stores no owner, and the loop iterates every
entry.  The agent record of a is removed and b is kept, as claimed. -/
theorem cleanup_fails_other_agents_request :
    lookupAgent (step meshC2Start (.cleanup "a")).agents "a" = none ∧
    lookupAgent (step meshC2Start (.cleanup "a")).agents "b" = some meshAgentB ∧
    lookupPending (step meshC2Start (.cleanup "a")).pending "t7" =
      some { owner := "b", inMap := true,
             result := some (false, "Agente pc1 se desconecto.") } :=
  ⟨rfl, rfl, by decide⟩

/-- C8: any connection whose authorization header is not exactly "Bearer "
followed by the configured shared secret is closed with code 4001, and the
agent table is returned unchanged — no AgentRecord is created. -/
theorem handle_agent_connection_rejects_bad_auth (ws_secret authHeader : String)
    (s : MeshSt) (new_id : String) (now : ℚ)
    (h : authHeader ≠ "Bearer " ++ ws_secret) :
    handle_agent_connection ws_secret authHeader s new_id now = (s, some 4001) := by
  simp [handle_agent_connection, bne_iff_ne, h]

/-- C8 witness: a concrete mismatched bearer token is rejected with 4001 on
the empty mesh. -/
theorem handle_agent_connection_rejects_bad_auth_witness :
    "Bearer nope" ≠ "Bearer " ++ "sec" ∧
    handle_agent_connection "sec" "Bearer nope" meshEmpty "id0" 0 =
      (meshEmpty, some 4001) :=
  ⟨by decide,
   handle_agent_connection_rejects_bad_auth "sec" "Bearer nope" meshEmpty
     "id0" 0 (by decide)⟩

/-- C6 counterexample: on a failed spawn (FileNotFoundError), the dict the
code returns carries `exit_code = -1`, not an absent exit code as the
claim states. -/
theorem run_spawn_failure_has_exit_code :
    (ProcessManager.run "foo".data 120 .fileNotFound).exit_code ≠ none := by
  decide

/-- C6 (amended): when the spawn fails — `FileNotFoundError` for a missing
command, or any other exception such as a permission error, caught by the
generic handler — `ProcessManager.run` returns `success = false` together
with the descriptive message of that branch and the sentinel exit code -1
(rather than no exit code as the claim stated). -/
theorem run_spawn_failure_result (command : List Char) (timeout : Int)
    (e : List Char) :
    ((ProcessManager.run command timeout .fileNotFound).success = false ∧
      (ProcessManager.run command timeout .fileNotFound).output =
        "Comando no encontrado: ".data ++ command ∧
      (ProcessManager.run command timeout .fileNotFound).exit_code =
        some (-1)) ∧
    ((ProcessManager.run command timeout (.otherError e)).success = false ∧
      (ProcessManager.run command timeout (.otherError e)).output =
        "Error ejecutando comando: ".data ++ e ∧
      (ProcessManager.run command timeout (.otherError e)).exit_code =
        some (-1)) :=
  ⟨⟨rfl, rfl, rfl⟩, ⟨rfl, rfl, rfl⟩⟩

/-- C7: the output of a completed run is the captured output capped at
MAX_OUTPUT characters: output longer than the ceiling is replaced by its
MAX_OUTPUT-character prefix with the truncation marker appended — hence it
ends with the marker and its length never exceeds ceiling plus marker
length — while output at or below the ceiling is returned unchanged. -/
theorem run_output_truncation (command : List Char) (timeout rc : Int)
    (out : List Char) :
    (ProcessManager.run command timeout (.completed rc out)).output =
      capOutput out ∧
    (MAX_OUTPUT < out.length →
      capOutput out = out.take MAX_OUTPUT ++ TRUNC_MARKER ∧
      TRUNC_MARKER <:+ capOutput out ∧
      (capOutput out).length ≤ MAX_OUTPUT + TRUNC_MARKER.length) ∧
    (out.length ≤ MAX_OUTPUT → capOutput out = out) := by
  refine ⟨rfl, ?_, ?_⟩
  · intro hlong
    have hcap : capOutput out = out.take MAX_OUTPUT ++ TRUNC_MARKER := by
      simp [capOutput, hlong]
    refine ⟨hcap, ?_, ?_⟩
    · rw [hcap]
      exact List.suffix_append _ _
    · rw [hcap]
      simp only [List.length_append, List.length_take]
      omega
  · intro hshort
    simp [capOutput, Nat.not_lt.mpr hshort]

/-- C7 witness: a 50001-character output is truncated to the 50000-prefix
plus marker; the empty output is returned unchanged. -/
theorem run_output_truncation_witness :
    (MAX_OUTPUT < (List.replicate (MAX_OUTPUT + 1) 'x').length ∧
      capOutput (List.replicate (MAX_OUTPUT + 1) 'x') =
        (List.replicate (MAX_OUTPUT + 1) 'x').take MAX_OUTPUT ++ TRUNC_MARKER) ∧
    (([] : List Char).length ≤ MAX_OUTPUT ∧ capOutput ([] : List Char) = []) := by
  have hlong : MAX_OUTPUT < (List.replicate (MAX_OUTPUT + 1) 'x').length := by
    simp
  have hshort : ([] : List Char).length ≤ MAX_OUTPUT := by simp
  exact ⟨⟨hlong, ((run_output_truncation [] 0 0 _).2.1 hlong).1⟩,
    ⟨hshort, (run_output_truncation [] 0 0 _).2.2 hshort⟩⟩

/-! Lemmas for the daemon reconnect backoff. -/

theorem retrySleep_closed (n : Nat) : retrySleep n = min (5 * 2 ^ n) 60 := by
  induction n with
  | zero => rfl
  | succ n ih =>
    have hpow : 5 * 2 ^ (n + 1) = 5 * 2 ^ n * 2 := by ring
    simp only [retrySleep, ih, MAX_RECONNECT_DELAY]
    omega

theorem sleepsOf_false (k : Nat) : ∀ j,
    sleepsOf (retrySleep j) (List.replicate k false) =
      (List.range k).map (fun i => retrySleep (j + i)) := by
  induction k with
  | zero => intro j; simp [sleepsOf]
  | succ k ih =>
    intro j
    rw [List.replicate_succ]
    have hstep : sleepsOf (retrySleep j) (false :: List.replicate k false) =
        retrySleep j ::
          sleepsOf (min (retrySleep j * 2) MAX_RECONNECT_DELAY)
            (List.replicate k false) := rfl
    have hnext : min (retrySleep j * 2) MAX_RECONNECT_DELAY = retrySleep (j + 1) := rfl
    rw [hstep, hnext, ih (j + 1), List.range_succ_eq_map]
    simp only [List.map_cons, List.map_map, Nat.add_zero]
    congr 1
    apply List.map_congr_left
    intro i _
    simp only [Function.comp_apply]
    congr 1
    omega

/-- C9: whatever delay the loop entered with, an iteration in which the
connection is (re)established resets the backoff, so the sleep before the
first retry after the disconnect is RECONNECT_DELAY = 5 s, and k
subsequent failed attempts sleep `retrySleep 1`, ..., `retrySleep k`: the
delays 5, 10, 20, 40, 60, 60, ... — each is double the previous one capped
at 60 s, frozen at 60 s from the fifth retry on, never exceeding 60 s. -/
theorem reconnect_backoff (d0 : Nat) (k : Nat) :
    sleepsOf d0 (true :: List.replicate k false) =
      (List.range (k + 1)).map retrySleep ∧
    retrySleep 0 = 5 ∧ retrySleep 1 = 10 ∧ retrySleep 2 = 20 ∧
    retrySleep 3 = 40 ∧ (∀ n, 4 ≤ n → retrySleep n = 60) ∧
    ∀ n, retrySleep n ≤ 60 := by
  refine ⟨?_, rfl, rfl, rfl, rfl, ?_, ?_⟩
  · have hstep : sleepsOf d0 (true :: List.replicate k false) =
        RECONNECT_DELAY ::
          sleepsOf (min (RECONNECT_DELAY * 2) MAX_RECONNECT_DELAY)
            (List.replicate k false) := rfl
    have h1 : min (RECONNECT_DELAY * 2) MAX_RECONNECT_DELAY = retrySleep 1 := rfl
    rw [hstep, h1, sleepsOf_false k 1, List.range_succ_eq_map]
    simp only [List.map_cons, List.map_map]
    congr 1
    apply List.map_congr_left
    intro i _
    simp only [Function.comp_apply]
    congr 1
    omega
  · intro n hn
    rw [retrySleep_closed]
    have h16 : (16 : Nat) ≤ 2 ^ n := by
      calc (16 : Nat) = 2 ^ 4 := by norm_num
        _ ≤ 2 ^ n := Nat.pow_le_pow_right (by norm_num) hn
    omega
  · intro n
    rw [retrySleep_closed]
    omega

/-- C9 witness: entering with a stale delay of 7 s, a successful session
followed by five failed attempts sleeps 5, 10, 20, 40, 60, 60 seconds. -/
theorem reconnect_backoff_witness :
    sleepsOf 7 (true :: List.replicate 5 false) = [5, 10, 20, 40, 60, 60] ∧
    4 ≤ 6 ∧ retrySleep 6 = 60 ∧ retrySleep 6 ≤ 60 := by
  obtain ⟨h1, _, _, _, _, h60, hle⟩ := reconnect_backoff 7 5
  refine ⟨?_, by norm_num, h60 6 (by norm_num), hle 6⟩
  rw [h1]
  decide
